import Mathlib

/-!
Verification of the editorial product-catalog service: a shallow embedding of
the product lifecycle orchestrator (ProductService), the audit diff engine
(diff.util.js) and the GTIN validator (gtin.util.js), together with theorems
about the role-gated workflow, audit trail and side-effect ordering.

Documents and update payloads are modelled as ordered association lists of
JSON values, matching JavaScript object semantics (insertion order preserved,
`JSON.stringify` equality = structural equality for objects without
`undefined` members).
-/

/-- JSON-like values, as stored in product documents and update payloads.
Nested objects (such as `manufacturer`) are encoded as a cons-chain of
fields: `objCons k v rest` is the object whose first field is `k : v`
followed by the fields of `rest`, and `objNil` is the empty object.  This
keeps the inductive non-nested so that structural equality — the model of
`JSON.stringify` comparison — is derivable and computable. -/
inductive Json where
  | null : Json
  | str : String → Json
  | num : Int → Json
  | bool : Bool → Json
  | objNil : Json
  | objCons : String → Json → Json → Json
deriving Repr, DecidableEq

/-- A JavaScript object: an ordered association list of fields. -/
abbrev Obj := List (String × Json)

/-- Field lookup (`obj[k]`); `none` models an absent key / `undefined`. -/
def getKey : Obj → String → Option Json
  | [], _ => none
  | p :: rest, k => if p.1 = k then some p.2 else getKey rest k

/-- `Object.prototype.hasOwnProperty.call(obj, k)`. -/
def hasKey (o : Obj) (k : String) : Bool :=
  (getKey o k).isSome

/-- Field assignment (`obj[k] = v`): replaces the value in place when the key
exists, otherwise appends the key at the end, as JavaScript does. -/
def setKey : Obj → String → Json → Obj
  | [], k, v => [(k, v)]
  | p :: rest, k, v => if p.1 = k then (k, v) :: rest else p :: setKey rest k v

/-- `pick` from diff.util.js: the subset of `obj` at the given keys, in the
order of the key list, keeping only keys the object actually has. -/
def pick (o : Obj) (keys : List String) : Obj :=
  keys.filterMap (fun k => (getKey o k).map (fun v => (k, v)))

/-- `BUSINESS_FIELDS` from diff.util.js: the eight audited fields. -/
def BUSINESS_FIELDS : List String :=
  ["gtin", "name", "description", "brand", "manufacturer", "netWeight",
    "weightUnit", "status"]

/-- One step of the `for (const key of BUSINESS_FIELDS)` loop in
`computeAuditDiff`: the accumulator carries the evolving `nextSnapshot`
and the `touched` flag. -/
def auditDiffStep (prevSnapshot updates : Obj) (acc : Obj × Bool)
    (k : String) : Obj × Bool :=
  match getKey updates k with
  | some v =>
      (setKey acc.1 k v, acc.2 || decide (getKey prevSnapshot k ≠ some v))
  | none => acc

/-- `computeAuditDiff` from diff.util.js.  `prevSnapshot` is the pick of all
business fields from the current document; `nextSnapshot` starts as a copy
and every business field present in `updates` is written over it, raising
`touched` when the stringified old and new values differ (an absent old value
stringifies to `undefined`, which differs from every present value). -/
def computeAuditDiff (currentDoc updates : Obj) : Obj × Obj :=
  let prevSnapshot := pick currentDoc BUSINESS_FIELDS
  let r := BUSINESS_FIELDS.foldl (auditDiffStep prevSnapshot updates)
    (prevSnapshot, false)
  if r.2 then (prevSnapshot, r.1) else ([], [])

/-- `charCodeAt(i) - 48` on a digit character. -/
def digitVal (c : Char) : Nat :=
  c.toNat - 48

/-- The summation loop of `computeCheckDigit` (gtin.util.js): `n` is the
length of the whole base string and `i` the 0-based index of the head
character. -/
def gtinSum (n : Nat) : Nat → List Char → Nat
  | _, [] => 0
  | i, c :: cs =>
      let pos := i + 1
      let w : Nat :=
        if (n % 2 == 0 && pos % 2 == 0) || (n % 2 == 1 && pos % 2 == 1)
        then 3 else 1
      digitVal c * w + gtinSum n (i + 1) cs

/-- The `/^\d+$/` test guarding `computeCheckDigit`. -/
def isNumericString (s : String) : Bool :=
  s.data.length > 0 && s.data.all Char.isDigit

/-- `computeCheckDigit` from gtin.util.js; `none` models the thrown error on
a non-numeric base. -/
def computeCheckDigit (base : String) : Option Nat :=
  if isNumericString base then
    let n := base.data.length
    let sum := gtinSum n 0 base.data
    some ((10 - sum % 10) % 10)
  else none

/-- The `/^\d{8}$|^\d{12}$|^\d{13}$|^\d{14}$/` test from gtin.util.js. -/
def gtinPattern (s : String) : Bool :=
  s.data.all Char.isDigit &&
    (s.data.length == 8 || s.data.length == 12 || s.data.length == 13 ||
      s.data.length == 14)

/-- `isValidGTIN` from gtin.util.js: format check, then the last digit must
equal the check digit computed over the base (all but the last digit). -/
def isValidGTIN (gtin : String) : Bool :=
  if gtinPattern gtin then
    match computeCheckDigit (String.mk gtin.data.dropLast),
        gtin.data.getLast? with
    | some expected, some c => expected == digitVal c
    | _, _ => false
  else false

/-! ## The product lifecycle orchestrator (ProductService)

The service methods `createWithRole`, `updateWithAudit` and `approvePending`
are embedded as pure functions over an explicit database state.  External
collaborators are modelled as follows: the Mongo store is the `DB` state, a
store-level failure of the primary insert / update and of the audit insert is
injected through an `Oracle`, and every attempted collaborator call (primary
write, audit append, RabbitMQ publish, Elasticsearch upsert) is recorded in
an ordered effect trace. -/

/-- The request actor (`{ userId, role }`); `role = none` models a missing
or null role. -/
structure Actor where
  userId : String
  role : Option String
deriving Repr, DecidableEq

/-- A `{ status, data?, error? }` service result. -/
structure Res where
  status : Nat
  data : Option Obj
  error : Option String
deriving Repr, DecidableEq

/-- Outcomes of the fallible store calls an operation may attempt: the
primary insert, the primary update, and the audit-log insert.  `none`
means the write succeeds; `some e` means the store call fails and
`BaseService.handleError` classifies it as the structured result `e` —
a 400-class result for duplicate-key (code 11000, e.g. the gtin unique
index), cast, and validation errors, a 404 for a vanished document, a
500-class result for connectivity failures, and so on.  Every
`handleError` result has status ≥ 400, so the `status >= 400` guard the
service runs after each primary write distinguishes exactly these two
outcomes.  The audit insert's result is silently discarded by all
callers, so only its success flag matters. -/
structure Oracle where
  insertErr : Option Res
  updateErr : Option Res
  auditOk : Bool
deriving Repr, DecidableEq

/-- One attempted external call, in program order.  Fallible store calls
record whether the store reported success. -/
inductive Effect where
  | insertProduct : Obj → Bool → Effect
  | updateProduct : Nat → Obj → Bool → Effect
  | auditInsert : Nat → String → String → Obj → Obj → Bool → Effect
  | publishEvent : String → Nat → Effect
  | esUpsert : Nat → Effect
deriving Repr, DecidableEq

/-- The primary store: product documents keyed by a numeric id, plus the
next id the store will assign. -/
structure DB where
  products : List (Nat × Obj)
  nextId : Nat
deriving Repr, DecidableEq

/-- Per-character ASCII lowercasing (the effect of
`String.prototype.toLowerCase` on the role strings this system uses). -/
def lowerString (s : String) : String :=
  String.mk (s.data.map Char.toLower)

/-- `(actor?.role || "").toLowerCase()`, the role normalization done at the
top of all three service methods. -/
def roleLower (a : Actor) : String :=
  lowerString (a.role.getD "")

/-- A document is active when `deletedAt` is absent or null (the
`{ deletedAt: null }` Mongo filter added by BaseService). -/
def isActive (doc : Obj) : Bool :=
  match getKey doc "deletedAt" with
  | none => true
  | some Json.null => true
  | some _ => false

/-- `findOne({ _id: id, deletedAt: null })`: the first active document with
the given id. -/
def findProduct : List (Nat × Obj) → Nat → Option Obj
  | [], _ => none
  | e :: rest, id =>
      if e.1 == id && isActive e.2 then some e.2 else findProduct rest id

/-- `BaseService.findById` restricted to the data it returns. -/
def getProduct (db : DB) (id : Nat) : Option Obj :=
  findProduct db.products id

/-- Mongo `$set` merge semantics of `findOneAndUpdate(_, updateData, _)`:
every field of the update payload is written over the document. -/
def applyUpdates (doc updates : Obj) : Obj :=
  updates.foldl (fun d p => setKey d p.1 p.2) doc

/-- `findOneAndUpdate({ _id: id, deletedAt: null }, updates)`: rewrite the
first active document with the given id, leaving everything else as is. -/
def updateActive : List (Nat × Obj) → Nat → Obj → List (Nat × Obj)
  | [], _, _ => []
  | e :: rest, id, updates =>
      if e.1 == id && isActive e.2 then (e.1, applyUpdates e.2 updates) :: rest
      else e :: updateActive rest id updates

/-- `{ status: 404, error: "Document not found" }` from BaseService. -/
def resNotFound : Res := ⟨404, none, some "Document not found"⟩

/-- The 403 returned to a provider updating a product they do not own. -/
def resNotOwner : Res :=
  ⟨403, none, some "Forbidden: not the owner of this product"⟩

/-- The 400 returned to a provider updating a non-pending product. -/
def resOnlyPendingUpdate : Res :=
  ⟨400, none, some "Only pending products can be updated by provider"⟩

/-- The 400 returned to a provider whose update payload contains `status`. -/
def resNoStatusChange : Res :=
  ⟨400, none, some "Status changes are not allowed in this operation"⟩

/-- The 403 returned by `approvePending` to a non-editor. -/
def resOnlyEditorsApprove : Res :=
  ⟨403, none, some "Forbidden: only editors can approve products"⟩

/-- The 400 returned by `approvePending` on a non-pending product. -/
def resOnlyPendingApprove : Res :=
  ⟨400, none, some "Only pending products can be approved"⟩

/-- The `handleError` classification of a Mongo duplicate-key failure
(error code 11000), e.g. a gtin uniqueness violation on a create or
update: a 400-class structured error. -/
def resDuplicateKey : Res := ⟨400, none, some "Duplicate Key Error"⟩

/-- The document `createWithRole` persists:
`{ ...input, status, createdBy: actor.userId }` with status PUBLISHED for an
editor and PENDING_REVIEW for every other role. -/
def createPayload (actor : Actor) (input : Obj) : Obj :=
  let status :=
    if roleLower actor == "editor" then "PUBLISHED" else "PENDING_REVIEW"
  setKey (setKey input "status" (Json.str status)) "createdBy"
    (Json.str actor.userId)

/-- `ProductService.createWithRole`: derive the initial status from the
actor's role, persist, then append one CREATE audit record (its result is
ignored), publish `product.created` and upsert the document into the search
index.  The audit `newValues` snapshot is the object literal over the eight
business fields of the persisted document; `JSON.stringify` drops the
`undefined` members, so it equals `pick` of the persisted document. -/
def createWithRole (db : DB) (o : Oracle) (actor : Actor) (input : Obj) :
    Res × DB × List Effect :=
  let payload := createPayload actor input
  match o.insertErr with
  | none =>
      let id := db.nextId
      let db' : DB := ⟨db.products ++ [(id, payload)], id + 1⟩
      (⟨201, some payload, none⟩, db',
        [Effect.insertProduct payload true,
          Effect.auditInsert id actor.userId "CREATE" []
            (pick payload BUSINESS_FIELDS) o.auditOk,
          Effect.publishEvent "product.created" id,
          Effect.esUpsert id])
  | some e => (e, db, [Effect.insertProduct payload false])

/-- `ProductService.updateWithAudit`: look up the product, run the three
provider-only checks, compute the audit diff, and either return the current
document unchanged (no write, no audit, no side effects) when nothing
business-relevant changed, or persist the merge, append one UPDATE audit
record, publish `product.updated` and upsert into the search index. -/
def updateWithAudit (db : DB) (o : Oracle) (actor : Actor) (id : Nat)
    (updates : Obj) : Res × DB × List Effect :=
  let role := roleLower actor
  match getProduct db id with
  | none => (resNotFound, db, [])
  | some current =>
      if role == "provider" &&
          !(getKey current "createdBy" == some (Json.str actor.userId)) then
        (resNotOwner, db, [])
      else if role == "provider" &&
          !(getKey current "status" == some (Json.str "PENDING_REVIEW")) then
        (resOnlyPendingUpdate, db, [])
      else if role == "provider" && hasKey updates "status" then
        (resNoStatusChange, db, [])
      else
        let d := computeAuditDiff current updates
        let hasChanges := decide (0 < d.2.length) && !(d.1 == d.2)
        if hasChanges then
          match o.updateErr with
          | none =>
              let newDoc := applyUpdates current updates
              let db' : DB :=
                ⟨updateActive db.products id updates, db.nextId⟩
              (⟨200, some newDoc, none⟩, db',
                [Effect.updateProduct id updates true,
                  Effect.auditInsert id actor.userId "UPDATE" d.1 d.2
                    o.auditOk,
                  Effect.publishEvent "product.updated" id,
                  Effect.esUpsert id])
          | some e => (e, db, [Effect.updateProduct id updates false])
        else (⟨200, some current, none⟩, db, [])

/-- `ProductService.approvePending`: reject non-editors before any store
access, then require an active product whose status is PENDING_REVIEW, set
the status to PUBLISHED, append one STATUS_CHANGE audit record, publish
`product.approved` and upsert into the search index.  The audit
`previousValues` uses `current.status`, which the guard has pinned to
PENDING_REVIEW. -/
def approvePending (db : DB) (o : Oracle) (actor : Actor) (id : Nat) :
    Res × DB × List Effect :=
  let role := roleLower actor
  if !(role == "editor") then (resOnlyEditorsApprove, db, [])
  else
    match getProduct db id with
    | none => (resNotFound, db, [])
    | some current =>
        if !(getKey current "status" == some (Json.str "PENDING_REVIEW")) then
          (resOnlyPendingApprove, db, [])
        else
          let updates : Obj := [("status", Json.str "PUBLISHED")]
          match o.updateErr with
          | none =>
              let newDoc := applyUpdates current updates
              let db' : DB :=
                ⟨updateActive db.products id updates, db.nextId⟩
              (⟨200, some newDoc, none⟩, db',
                [Effect.updateProduct id updates true,
                  Effect.auditInsert id actor.userId "STATUS_CHANGE"
                    [("status", Json.str "PENDING_REVIEW")]
                    [("status", Json.str "PUBLISHED")] o.auditOk,
                  Effect.publishEvent "product.approved" id,
                  Effect.esUpsert id])
          | some e => (e, db, [Effect.updateProduct id updates false])

/-- One orchestrator invocation, for reasoning about operation sequences. -/
inductive Op where
  | create : Oracle → Actor → Obj → Op
  | update : Oracle → Actor → Nat → Obj → Op
  | approve : Oracle → Actor → Nat → Op
deriving Repr, DecidableEq

/-- The database reached after one operation. -/
def applyOp (db : DB) : Op → DB
  | Op.create o a input => (createWithRole db o a input).2.1
  | Op.update o a id updates => (updateWithAudit db o a id updates).2.1
  | Op.approve o a id => (approvePending db o a id).2.1

/-- The database reached after a sequence of operations. -/
def runOps (db : DB) (ops : List Op) : DB :=
  ops.foldl applyOp db

/-! ## Auxiliary definitions for the theorems below -/

/-- The `touched` condition of `computeAuditDiff`, phrased against the
current document: some business field present in `updates` structurally
differs from the current value (an absent current value counts as
different, as `JSON.stringify(undefined)` differs from every present
value). -/
def touchedP (current updates : Obj) : Bool :=
  BUSINESS_FIELDS.any (fun k =>
    hasKey updates k && decide (getKey current k ≠ getKey updates k))

/-- Store well-formedness: document ids are unique (Mongo enforces `_id`
uniqueness) and smaller than the next id the store will assign. -/
def WF (db : DB) : Prop :=
  (db.products.map Prod.fst).Nodup ∧ ∀ e ∈ db.products, e.1 < db.nextId

/-- One admissible evolution of a product's status under the editorial
workflow: unchanged, or the one-way PENDING_REVIEW → PUBLISHED move. -/
def statusStep (s s' : Option Json) : Prop :=
  s' = s ∨ (s = some (Json.str "PENDING_REVIEW") ∧
    s' = some (Json.str "PUBLISHED"))

/-- The operations the amended single-direction claim quantifies over:
Update calls are performed by provider-role actors (Create and Approve are
unrestricted). -/
def updatesByProvider : Op → Bool
  | Op.update _ a _ _ => roleLower a == "provider"
  | _ => true

/-- Is this effect an audit-log append attempt? -/
def isAuditEffect : Effect → Bool
  | Effect.auditInsert _ _ _ _ _ _ => true
  | _ => false

/-- Is this effect a best-effort side effect (bus publish or search
upsert)? -/
def isSideEffect : Effect → Bool
  | Effect.publishEvent _ _ => true
  | Effect.esUpsert _ => true
  | _ => false

/-- Number of audit-log append attempts in a trace. -/
def countAudits (tr : List Effect) : Nat :=
  (tr.filter isAuditEffect).length

/-- Number of best-effort side effects in a trace. -/
def countSideEffects (tr : List Effect) : Nat :=
  (tr.filter isSideEffect).length

/-- Scanner for the side-effect ordering discipline, walking the trace with
two flags: `pOk` (a primary store write has succeeded so far) and `aDone`
(an audit append has been attempted so far).  It accepts exactly the traces
in which every audit append comes after a successful primary write and every
publish / search upsert comes after a successful primary write and an
attempted audit append. -/
def effectsOrdered : List Effect → Bool → Bool → Bool
  | [], _, _ => true
  | Effect.insertProduct _ ok :: rest, pOk, aDone =>
      effectsOrdered rest (pOk || ok) aDone
  | Effect.updateProduct _ _ ok :: rest, pOk, aDone =>
      effectsOrdered rest (pOk || ok) aDone
  | Effect.auditInsert _ _ _ _ _ _ :: rest, pOk, _ =>
      pOk && effectsOrdered rest pOk true
  | Effect.publishEvent _ _ :: rest, pOk, aDone =>
      pOk && aDone && effectsOrdered rest pOk aDone
  | Effect.esUpsert _ :: rest, pOk, aDone =>
      pOk && aDone && effectsOrdered rest pOk aDone

instance (db : DB) : Decidable (WF db) :=
  inferInstanceAs (Decidable (_ ∧ _))

def c1doc : Obj :=
  [("gtin", Json.str "04006381333931"), ("name", Json.str "Choc Bar"),
    ("brand", Json.str "Acme"), ("status", Json.str "PUBLISHED"),
    ("createdBy", Json.str "u1")]

def c1db : DB := ⟨[(1, c1doc)], 2⟩

def c1wdoc : Obj :=
  [("gtin", Json.str "04006381333931"), ("name", Json.str "Choc Bar"),
    ("brand", Json.str "Acme"), ("status", Json.str "PENDING_REVIEW"),
    ("createdBy", Json.str "u1")]

def c1wdoc2 : Obj :=
  [("gtin", Json.str "04006381333931"), ("name", Json.str "Choc Bar"),
    ("brand", Json.str "Acme"), ("status", Json.str "PUBLISHED"),
    ("createdBy", Json.str "u1")]

def c1wdb : DB := ⟨[(1, c1wdoc)], 2⟩

def c1wops : List Op :=
  [Op.approve ⟨none, none, true⟩ ⟨"e1", some "editor"⟩ 1]

def c2cur : Obj :=
  [("gtin", Json.str "04006381333931"), ("name", Json.str "Choc Bar"),
    ("description", Json.str ""), ("brand", Json.str "Acme"),
    ("status", Json.str "PENDING_REVIEW"), ("createdBy", Json.str "u1")]

def c2upd : Obj := [("description", Json.str "Tasty")]

def c3db : DB := ⟨[], 1⟩

def c3actor : Actor := ⟨"u1", some "provider"⟩

def c3input : Obj :=
  [("gtin", Json.str "04006381333931"), ("name", Json.str "Choc Bar"),
    ("brand", Json.str "Acme")]

def c5doc : Obj :=
  [("name", Json.str "P"), ("status", Json.str "PENDING_REVIEW"),
    ("createdBy", Json.str "u1")]

def c5db : DB := ⟨[(1, c5doc)], 2⟩

def c6doc : Obj :=
  [("name", Json.str "Bar"), ("status", Json.str "PUBLISHED"),
    ("createdBy", Json.str "owner")]

def c6db : DB := ⟨[(1, c6doc)], 2⟩

def c7doc : Obj :=
  [("description", Json.str "Tasty"),
    ("status", Json.str "PENDING_REVIEW"), ("createdBy", Json.str "u1")]

def c7db : DB := ⟨[(1, c7doc)], 2⟩

def c10doc : Obj :=
  [("name", Json.str "Bar"), ("status", Json.str "PUBLISHED"),
    ("createdBy", Json.str "owner")]

def c10db : DB := ⟨[(1, c10doc)], 2⟩

/-- The weight the claim assigns to 1-based position `pos` of a base of
length `n`: 3 when the length and the position have the same parity, else
1. -/
def specWeight (n pos : Nat) : Nat :=
  if (n % 2 = 0 ∧ pos % 2 = 0) ∨ (n % 2 = 1 ∧ pos % 2 = 1) then 3 else 1

/-- The claim's check-digit formula:
`(10 - (sum of digit * weight over 1-based positions) mod 10) mod 10`. -/
def specCheckDigit (base : String) : Nat :=
  (10 - (((base.data.enum).map
    (fun p => digitVal p.2 * specWeight base.data.length (p.1 + 1))).sum
      % 10)) % 10

/-! ## Association-list lemmas -/

theorem getKey_setKey_self (o : Obj) (k : String) (v : Json) :
    getKey (setKey o k v) k = some v := by
  induction o with
  | nil => simp [setKey, getKey]
  | cons p rest ih =>
      by_cases h : p.1 = k
      · simp [setKey, h, getKey]
      · simp [setKey, h, getKey, ih]

theorem getKey_setKey_ne (o : Obj) (k k' : String) (v : Json) (h : k' ≠ k) :
    getKey (setKey o k v) k' = getKey o k' := by
  induction o with
  | nil => simp [setKey, getKey, Ne.symm h]
  | cons p rest ih =>
      by_cases hp : p.1 = k
      · simp [setKey, hp, getKey, Ne.symm h]
      · simp [setKey, hp, getKey, ih]

theorem getKey_pick (o : Obj) (ks : List String) (k : String) :
    getKey (pick o ks) k = if k ∈ ks then getKey o k else none := by
  induction ks with
  | nil => simp [pick, getKey]
  | cons k0 rest ih =>
      simp only [pick, List.filterMap_cons] at ih ⊢
      cases h0 : getKey o k0 with
      | none =>
          simp only [Option.map_none']
          rw [ih]
          by_cases hk : k = k0
          · subst hk
            simp [h0, List.mem_cons]
          · simp [hk, List.mem_cons]
      | some v =>
          simp only [Option.map_some']
          by_cases hk : k = k0
          · subst hk
            simp [getKey, h0, List.mem_cons]
          · simp [getKey, Ne.symm hk, hk, ih, List.mem_cons]

theorem list_any_congr {α : Type} (l : List α) (f g : α → Bool)
    (h : ∀ a ∈ l, f a = g a) : l.any f = l.any g := by
  induction l with
  | nil => rfl
  | cons x xs ih =>
      simp only [List.any_cons]
      rw [h x (List.mem_cons_self x xs),
        ih (fun a ha => h a (List.mem_cons_of_mem x ha))]

theorem getKey_applyUpdates_of_not_hasKey (doc updates : Obj) (k : String)
    (h : hasKey updates k = false) :
    getKey (applyUpdates doc updates) k = getKey doc k := by
  induction updates generalizing doc with
  | nil => simp [applyUpdates]
  | cons p rest ih =>
      have hne : k ≠ p.1 := by
        intro hk
        simp [hasKey, getKey, hk] at h
      have hrest : hasKey rest k = false := by
        simp [hasKey, getKey, Ne.symm hne] at h ⊢
        exact h
      simp only [applyUpdates, List.foldl_cons]
      rw [show List.foldl (fun d p => setKey d p.1 p.2)
        (setKey doc p.1 p.2) rest = applyUpdates (setKey doc p.1 p.2) rest
        from rfl]
      rw [ih (setKey doc p.1 p.2) hrest, getKey_setKey_ne _ _ _ _ hne]

/-! ## Characterization of the audit diff engine -/

theorem auditDiffFold_snd (prev updates : Obj) (ks : List String)
    (acc : Obj × Bool) :
    (ks.foldl (auditDiffStep prev updates) acc).2 =
      (acc.2 || ks.any (fun k =>
        hasKey updates k && decide (getKey prev k ≠ getKey updates k))) := by
  induction ks generalizing acc with
  | nil => simp
  | cons k0 rest ih =>
      simp only [List.foldl_cons, List.any_cons]
      rw [ih]
      cases h0 : getKey updates k0 with
      | none => simp [auditDiffStep, h0, hasKey]
      | some v => simp [auditDiffStep, h0, hasKey, Bool.or_assoc]

theorem auditDiffFold_fst (prev updates : Obj) (ks : List String)
    (acc : Obj × Bool) (k : String) :
    getKey (ks.foldl (auditDiffStep prev updates) acc).1 k =
      if hasKey updates k = true ∧ k ∈ ks then getKey updates k
      else getKey acc.1 k := by
  induction ks generalizing acc with
  | nil => simp
  | cons k0 rest ih =>
      simp only [List.foldl_cons]
      rw [ih]
      cases h0 : getKey updates k0 with
      | none =>
          simp only [auditDiffStep, h0]
          by_cases hk : k = k0
          · subst hk
            simp [hasKey, h0]
          · simp [List.mem_cons, hk]
      | some v =>
          simp only [auditDiffStep, h0]
          by_cases hk : k = k0
          · subst hk
            simp [hasKey, h0, getKey_setKey_self, List.mem_cons]
          · simp [getKey_setKey_ne _ _ _ _ hk, List.mem_cons, hk]

theorem computeAuditDiff_touched_eq (current updates : Obj) :
    (BUSINESS_FIELDS.foldl
        (auditDiffStep (pick current BUSINESS_FIELDS) updates)
        (pick current BUSINESS_FIELDS, false)).2 =
      touchedP current updates := by
  rw [auditDiffFold_snd]
  simp only [Bool.false_or, touchedP]
  apply list_any_congr
  intro k hk
  rw [getKey_pick, if_pos hk]

/-- When nothing business-relevant changed, `computeAuditDiff` returns the
empty sentinel. -/
theorem computeAuditDiff_sentinel (current updates : Obj)
    (h : touchedP current updates = false) :
    computeAuditDiff current updates = ([], []) := by
  unfold computeAuditDiff
  simp only [computeAuditDiff_touched_eq, h]
  rfl

/-- When some business field present in `updates` differs,
`computeAuditDiff` returns the pick of all eight business fields from the
current document as `previous`, and as `next` that same snapshot with every
business field present in `updates` overridden by its new value. -/
theorem computeAuditDiff_of_touched (current updates : Obj)
    (h : touchedP current updates = true) :
    (computeAuditDiff current updates).1 = pick current BUSINESS_FIELDS ∧
    ∀ k, getKey (computeAuditDiff current updates).2 k =
      if hasKey updates k = true ∧ k ∈ BUSINESS_FIELDS then getKey updates k
      else getKey (pick current BUSINESS_FIELDS) k := by
  unfold computeAuditDiff
  simp only [computeAuditDiff_touched_eq, h, if_true]
  exact ⟨by trivial, fun k => auditDiffFold_fst _ _ _ _ _⟩

/-! ## Store-level lemmas -/

theorem findProduct_append_of_found (l l2 : List (Nat × Obj)) (id : Nat)
    (d : Obj) (h : findProduct l id = some d) :
    findProduct (l ++ l2) id = some d := by
  induction l with
  | nil => simp [findProduct] at h
  | cons e rest ih =>
      by_cases he : (e.1 == id && isActive e.2) = true
      · simp only [findProduct, he, if_true] at h
        simp only [List.cons_append, findProduct, he, if_true]
        exact h
      · simp only [findProduct, he, if_false, Bool.not_eq_true] at h
        simp only [List.cons_append, findProduct, he, if_false,
          Bool.not_eq_true]
        exact ih h

theorem findProduct_updateActive_ne (l : List (Nat × Obj)) (t id : Nat)
    (u : Obj) (h : id ≠ t) :
    findProduct (updateActive l t u) id = findProduct l id := by
  induction l with
  | nil => rfl
  | cons e rest ih =>
      by_cases he : (e.1 == t && isActive e.2) = true
      · have ht : e.1 = t := beq_iff_eq.mp ((Bool.and_eq_true _ _).mp he).1
        have hid : (e.1 == id) = false := by
          rw [ht]
          exact beq_eq_false_iff_ne.mpr (Ne.symm h)
        simp [updateActive, he, findProduct, hid]
      · have hsplit : (e.1 == t) = false ∨ isActive e.2 = false := by
          rcases Bool.eq_false_iff.mpr (fun hh => he hh) with h1
          cases hb : (e.1 == t) with
          | false => exact Or.inl rfl
          | true =>
              cases ha : isActive e.2 with
              | false => exact Or.inr rfl
              | true => exact absurd (by rw [hb, ha]; rfl) (fun hh => he hh)
        simp [updateActive, he, findProduct, ih]

theorem updateActive_keys (l : List (Nat × Obj)) (t : Nat) (u : Obj) :
    (updateActive l t u).map Prod.fst = l.map Prod.fst := by
  induction l with
  | nil => rfl
  | cons e rest ih =>
      by_cases he : (e.1 == t && isActive e.2) = true
      · simp [updateActive, he]
      · simp [updateActive, he, ih]

theorem findProduct_none_of_not_mem (l : List (Nat × Obj)) (id : Nat)
    (h : id ∉ l.map Prod.fst) : findProduct l id = none := by
  induction l with
  | nil => rfl
  | cons e rest ih =>
      simp only [List.map_cons, List.mem_cons] at h
      push_neg at h
      have h1 : (e.1 == id) = false :=
        beq_eq_false_iff_ne.mpr (Ne.symm h.1)
      simp [findProduct, h1, ih h.2]

theorem findProduct_updateActive_self_active (l : List (Nat × Obj)) (t : Nat)
    (u : Obj) (d : Obj) (h : findProduct l t = some d)
    (ha : isActive (applyUpdates d u) = true) :
    findProduct (updateActive l t u) t = some (applyUpdates d u) := by
  induction l with
  | nil => simp [findProduct] at h
  | cons e rest ih =>
      by_cases he : (e.1 == t && isActive e.2) = true
      · simp only [findProduct, he, if_true, Option.some.injEq] at h
        have ht : e.1 = t := beq_iff_eq.mp ((Bool.and_eq_true _ _).mp he).1
        have hact2 : isActive e.2 = true := ((Bool.and_eq_true _ _).mp he).2
        subst h
        simp [updateActive, findProduct, ht, hact2, ha]
      · simp only [findProduct, he, if_false, Bool.not_eq_true] at h
        simp [updateActive, he, findProduct, ih h]

theorem findProduct_updateActive_self (l : List (Nat × Obj)) (t : Nat)
    (u d : Obj) (hnd : (l.map Prod.fst).Nodup) (h : findProduct l t = some d) :
    findProduct (updateActive l t u) t =
      if isActive (applyUpdates d u) = true then some (applyUpdates d u)
      else none := by
  induction l with
  | nil => simp [findProduct] at h
  | cons e rest ih =>
      rw [List.map_cons, List.nodup_cons] at hnd
      by_cases he : (e.1 == t && isActive e.2) = true
      · simp only [findProduct, he, if_true, Option.some.injEq] at h
        have ht : e.1 = t := beq_iff_eq.mp ((Bool.and_eq_true _ _).mp he).1
        have hact2 : isActive e.2 = true := ((Bool.and_eq_true _ _).mp he).2
        subst h
        by_cases hact : isActive (applyUpdates e.2 u) = true
        · simp [updateActive, findProduct, ht, hact2, hact]
        · have hrest : findProduct rest t = none :=
            findProduct_none_of_not_mem rest t (ht ▸ hnd.1)
          simp [updateActive, findProduct, ht, hact2, hact, hrest]
      · simp only [findProduct, he, if_false, Bool.not_eq_true] at h
        simp [updateActive, he, findProduct, ih hnd.2 h]

/-! ## The status state machine -/

theorem statusStep_refl (s : Option Json) : statusStep s s := Or.inl rfl

theorem statusStep_trans (a b c : Option Json) (h1 : statusStep a b)
    (h2 : statusStep b c) : statusStep a c := by
  rcases h1 with rfl | ⟨ha, rfl⟩
  · exact h2
  · rcases h2 with rfl | ⟨hb, rfl⟩
    · exact Or.inr ⟨ha, rfl⟩
    · exact absurd hb (by decide)

theorem statusStep_of_same_db (db : DB) (id : Nat) (doc doc' : Obj)
    (h : getProduct db id = some doc) (h' : getProduct db id = some doc') :
    statusStep (getKey doc "status") (getKey doc' "status") := by
  rw [h] at h'
  cases h'
  exact statusStep_refl _

theorem isActive_of_findProduct (l : List (Nat × Obj)) (id : Nat) (d : Obj)
    (h : findProduct l id = some d) : isActive d = true := by
  induction l with
  | nil => simp [findProduct] at h
  | cons e rest ih =>
      by_cases he : (e.1 == id && isActive e.2) = true
      · simp only [findProduct, he, if_true, Option.some.injEq] at h
        subst h
        exact ((Bool.and_eq_true _ _).mp he).2
      · rw [findProduct, if_neg he] at h
        exact ih h

/-- Any single Create, Approve, or provider-authored Update moves the status
of an existing product along `statusStep` only. -/
theorem statusStep_applyOp (db : DB) (op : Op) (hwf : WF db)
    (hop : updatesByProvider op = true) (id : Nat) (doc doc' : Obj)
    (h : getProduct db id = some doc)
    (h' : getProduct (applyOp db op) id = some doc') :
    statusStep (getKey doc "status") (getKey doc' "status") := by
  cases op with
  | create o a input =>
      cases hi : o.insertErr with
      | none =>
          have hdb : applyOp db (Op.create o a input) =
              ⟨db.products ++ [(db.nextId, createPayload a input)],
                db.nextId + 1⟩ := by
            simp [applyOp, createWithRole, hi]
          rw [hdb] at h'
          have h2 : findProduct
              (db.products ++ [(db.nextId, createPayload a input)]) id =
              some doc := findProduct_append_of_found _ _ _ _ h
          rw [show getProduct
              (⟨db.products ++ [(db.nextId, createPayload a input)],
                db.nextId + 1⟩ : DB) id =
              findProduct
                (db.products ++ [(db.nextId, createPayload a input)])
                id from rfl, h2] at h'
          cases h'
          exact statusStep_refl _
      | some e =>
          have hdb : applyOp db (Op.create o a input) = db := by
            simp [applyOp, createWithRole, hi]
          rw [hdb] at h'
          exact statusStep_of_same_db db id doc doc' h h'
  | approve o a t =>
      simp only [applyOp, approvePending] at h'
      split at h'
      · exact statusStep_of_same_db db id doc doc' h h'
      · split at h'
        · exact statusStep_of_same_db db id doc doc' h h'
        · rename_i current hc
          split at h'
          · exact statusStep_of_same_db db id doc doc' h h'
          · rename_i hstat
            have hP : getKey current "status" =
                some (Json.str "PENDING_REVIEW") := by
              simpa using hstat
            split at h'
            · -- successful update branch
              by_cases hid : id = t
              · subst hid
                rw [h] at hc
                cases hc
                have hact : isActive
                    (applyUpdates doc [("status", Json.str "PUBLISHED")]) =
                    true := by
                  unfold isActive
                  rw [getKey_applyUpdates_of_not_hasKey _ _ _ (by rfl)]
                  have ha := isActive_of_findProduct _ _ _ h
                  unfold isActive at ha
                  exact ha
                have hres := findProduct_updateActive_self_active
                  db.products id [("status", Json.str "PUBLISHED")] doc h hact
                rw [show getProduct
                    (⟨updateActive db.products id
                        [("status", Json.str "PUBLISHED")], db.nextId⟩ : DB)
                      id =
                    findProduct (updateActive db.products id
                      [("status", Json.str "PUBLISHED")]) id from rfl,
                  hres] at h'
                cases h'
                refine Or.inr ⟨hP, ?_⟩
                rw [show applyUpdates doc [("status", Json.str "PUBLISHED")] =
                  setKey doc "status" (Json.str "PUBLISHED") from rfl]
                exact getKey_setKey_self _ _ _
              · rw [show getProduct
                    (⟨updateActive db.products t
                        [("status", Json.str "PUBLISHED")], db.nextId⟩ : DB)
                      id =
                    findProduct (updateActive db.products t
                      [("status", Json.str "PUBLISHED")]) id from rfl,
                  findProduct_updateActive_ne db.products t id _ hid] at h'
                exact statusStep_of_same_db db id doc doc' h h'
            · exact statusStep_of_same_db db id doc doc' h h'
  | update o a t u =>
      have hprov : (roleLower a == "provider") = true := by
        simpa [updatesByProvider] using hop
      simp only [applyOp, updateWithAudit] at h'
      split at h'
      · exact statusStep_of_same_db db id doc doc' h h'
      · rename_i current hc
        split at h'
        · exact statusStep_of_same_db db id doc doc' h h'
        · split at h'
          · exact statusStep_of_same_db db id doc doc' h h'
          · split at h'
            · exact statusStep_of_same_db db id doc doc' h h'
            · rename_i hnostatus
              have hns : hasKey u "status" = false := by
                simpa [hprov] using hnostatus
              split at h'
              · split at h'
                · -- successful update branch
                  by_cases hid : id = t
                  · subst hid
                    rw [h] at hc
                    cases hc
                    have hres := findProduct_updateActive_self db.products id
                      u doc hwf.1 h
                    rw [show getProduct
                        (⟨updateActive db.products id u, db.nextId⟩ : DB) id =
                        findProduct (updateActive db.products id u) id
                        from rfl, hres] at h'
                    split at h'
                    · cases h'
                      exact Or.inl
                        (getKey_applyUpdates_of_not_hasKey doc u "status" hns)
                    · cases h'
                  · rw [show getProduct
                        (⟨updateActive db.products t u, db.nextId⟩ : DB) id =
                        findProduct (updateActive db.products t u) id
                        from rfl,
                      findProduct_updateActive_ne db.products t id u hid]
                      at h'
                    exact statusStep_of_same_db db id doc doc' h h'
                · exact statusStep_of_same_db db id doc doc' h h'
              · exact statusStep_of_same_db db id doc doc' h h'

theorem findProduct_append_none (l l2 : List (Nat × Obj)) (id : Nat)
    (h : findProduct l id = none) :
    findProduct (l ++ l2) id = findProduct l2 id := by
  induction l with
  | nil => rfl
  | cons e rest ih =>
      by_cases he : (e.1 == id && isActive e.2) = true
      · rw [findProduct, if_pos he] at h
        cases h
      · rw [List.cons_append, findProduct, if_neg he]
        rw [findProduct, if_neg he] at h
        exact ih h

theorem mem_keys_of_findProduct (l : List (Nat × Obj)) (id : Nat) (d : Obj)
    (h : findProduct l id = some d) : id ∈ l.map Prod.fst := by
  induction l with
  | nil => simp [findProduct] at h
  | cons e rest ih =>
      by_cases he : (e.1 == id && isActive e.2) = true
      · have ht : e.1 = id := beq_iff_eq.mp ((Bool.and_eq_true _ _).mp he).1
        simp [ht]
      · rw [findProduct, if_neg he] at h
        simp [ih h]

/-- Every operation either leaves the store as is, appends one fresh
document, or rewrites one active document in place. -/
theorem applyOp_shape (db : DB) (op : Op) :
    applyOp db op = db ∨
    (∃ p, applyOp db op =
      ⟨db.products ++ [(db.nextId, p)], db.nextId + 1⟩) ∨
    (∃ t u current, getProduct db t = some current ∧
      applyOp db op = ⟨updateActive db.products t u, db.nextId⟩) := by
  cases op with
  | create o a input =>
      cases hi : o.insertErr with
      | none =>
          exact Or.inr (Or.inl ⟨createPayload a input,
            by simp [applyOp, createWithRole, hi]⟩)
      | some e =>
          exact Or.inl (by simp [applyOp, createWithRole, hi])
  | update o a t u =>
      simp only [applyOp, updateWithAudit]
      split
      · exact Or.inl rfl
      · rename_i current hc
        split
        · exact Or.inl rfl
        · split
          · exact Or.inl rfl
          · split
            · exact Or.inl rfl
            · split
              · split
                · exact Or.inr (Or.inr ⟨t, u, current, hc, rfl⟩)
                · exact Or.inl rfl
              · exact Or.inl rfl
  | approve o a t =>
      simp only [applyOp, approvePending]
      split
      · exact Or.inl rfl
      · split
        · exact Or.inl rfl
        · rename_i current hc
          split
          · exact Or.inl rfl
          · split
            · exact Or.inr (Or.inr ⟨t, [("status", Json.str "PUBLISHED")],
                current, hc, rfl⟩)
            · exact Or.inl rfl

theorem WF_applyOp (db : DB) (op : Op) (h : WF db) : WF (applyOp db op) := by
  rcases applyOp_shape db op with hdb | ⟨p, hdb⟩ | ⟨t, u, current, hc, hdb⟩ <;>
    rw [hdb]
  · exact h
  · constructor
    · simp only [List.map_append, List.map_cons, List.map_nil]
      refine List.Nodup.append h.1 (List.nodup_singleton _) ?_
      intro a ha hb
      rw [List.mem_singleton] at hb
      rcases List.mem_map.mp ha with ⟨e, he, rfl⟩
      exact absurd (hb ▸ h.2 e he) (lt_irrefl _)
    · intro e he
      rcases List.mem_append.mp he with he | he
      · exact Nat.lt_succ_of_lt (h.2 e he)
      · rw [List.mem_singleton] at he
        rw [he]
        exact Nat.lt_succ_self _
  · constructor
    · rw [show (⟨updateActive db.products t u, db.nextId⟩ : DB).products =
        updateActive db.products t u from rfl, updateActive_keys]
      exact h.1
    · intro e he
      have hmem : e.1 ∈ (updateActive db.products t u).map Prod.fst :=
        List.mem_map_of_mem _ he
      rw [updateActive_keys] at hmem
      rcases List.mem_map.mp hmem with ⟨e0, he0, heq⟩
      rw [← heq]
      exact h.2 e0 he0

theorem applyOp_keys_mono (db : DB) (op : Op) (id : Nat)
    (h : id ∈ db.products.map Prod.fst) :
    id ∈ (applyOp db op).products.map Prod.fst := by
  rcases applyOp_shape db op with hdb | ⟨p, hdb⟩ | ⟨t, u, c, hc, hdb⟩ <;>
    rw [hdb]
  · exact h
  · simp only [List.map_append]
    exact List.mem_append.mpr (Or.inl h)
  · rw [show (⟨updateActive db.products t u, db.nextId⟩ : DB).products =
      updateActive db.products t u from rfl, updateActive_keys]
    exact h

theorem getProduct_none_applyOp (db : DB) (op : Op) (hwf : WF db) (id : Nat)
    (hmem : id ∈ db.products.map Prod.fst)
    (h : getProduct db id = none) :
    getProduct (applyOp db op) id = none := by
  rcases applyOp_shape db op with hdb | ⟨p, hdb⟩ | ⟨t, u, c, hc, hdb⟩ <;>
    rw [hdb]
  · exact h
  · have hne : (db.nextId == id) = false := by
      refine beq_eq_false_iff_ne.mpr ?_
      rcases List.mem_map.mp hmem with ⟨e, he, rfl⟩
      exact fun hh => absurd (hh ▸ hwf.2 e he) (lt_irrefl _)
    rw [show getProduct (⟨db.products ++ [(db.nextId, p)],
        db.nextId + 1⟩ : DB) id =
      findProduct (db.products ++ [(db.nextId, p)]) id from rfl,
      findProduct_append_none _ _ _ h, findProduct, hne]
    rfl
  · by_cases hid : id = t
    · subst hid
      rw [hc] at h
      cases h
    · rw [show getProduct (⟨updateActive db.products t u, db.nextId⟩ : DB)
          id = findProduct (updateActive db.products t u) id from rfl,
        findProduct_updateActive_ne db.products t id u hid]
      exact h

theorem getProduct_none_runOps (db : DB) (ops : List Op) (hwf : WF db)
    (id : Nat) (hmem : id ∈ db.products.map Prod.fst)
    (h : getProduct db id = none) :
    getProduct (runOps db ops) id = none := by
  induction ops generalizing db with
  | nil => exact h
  | cons op rest ih =>
      exact ih (applyOp db op) (WF_applyOp db op hwf)
        (applyOp_keys_mono db op id hmem)
        (getProduct_none_applyOp db op hwf id hmem h)

/-! ## Effect-trace predicates -/

theorem getKey_createPayload_status (actor : Actor) (input : Obj) :
    getKey (createPayload actor input) "status" =
      some (Json.str (if roleLower actor == "editor" then "PUBLISHED"
        else "PENDING_REVIEW")) := by
  unfold createPayload
  rw [getKey_setKey_ne _ _ _ _ (by decide), getKey_setKey_self]

theorem getKey_createPayload_createdBy (actor : Actor) (input : Obj) :
    getKey (createPayload actor input) "createdBy" =
      some (Json.str actor.userId) :=
  getKey_setKey_self _ _ _

/-! ## Claim theorems -/

/-- C1 (amended): over any sequence of Create, Approve, and
provider-authored Update operations on a well-formed store, the status of
any product present before and after evolves only along the single
PENDING_REVIEW → PUBLISHED transition (or stays unchanged).  The
restriction to provider-authored Updates is forced by the counterexample:
an Update by any non-provider role may write the `status` field freely. -/
theorem status_transitions_of_provider_updates (db : DB) (ops : List Op)
    (hwf : WF db) (hops : ∀ op ∈ ops, updatesByProvider op = true)
    (id : Nat) (doc0 doc1 : Obj) (h0 : getProduct db id = some doc0)
    (h1 : getProduct (runOps db ops) id = some doc1) :
    statusStep (getKey doc0 "status") (getKey doc1 "status") := by
  induction ops generalizing db doc0 with
  | nil => exact statusStep_of_same_db db id doc0 doc1 h0 h1
  | cons op rest ih =>
      have hop := hops op (List.mem_cons_self _ _)
      have hrest : ∀ o ∈ rest, updatesByProvider o = true :=
        fun o ho => hops o (List.mem_cons_of_mem _ ho)
      have hwf' := WF_applyOp db op hwf
      cases hmid : getProduct (applyOp db op) id with
      | some docm =>
          exact statusStep_trans _ _ _
            (statusStep_applyOp db op hwf hop id doc0 docm h0 hmid)
            (ih (applyOp db op) hwf' hrest docm hmid h1)
      | none =>
          have hmem : id ∈ (applyOp db op).products.map Prod.fst :=
            applyOp_keys_mono db op id
              (mem_keys_of_findProduct db.products id doc0 h0)
          have hnone := getProduct_none_runOps (applyOp db op) rest hwf' id
            hmem hmid
          rw [show runOps db (op :: rest) = runOps (applyOp db op) rest
            from rfl, hnone] at h1
          cases h1

/-- C1 counterexample: an EDITOR-authored generic Update whose payload
contains a `status` key succeeds (HTTP 200) and moves a PUBLISHED product
back to PENDING_REVIEW, so the status field does not transition only
PENDING_REVIEW → PUBLISHED under Update calls. -/
theorem editor_update_reverts_published_status :
    getKey c1doc "status" = some (Json.str "PUBLISHED") ∧
    (updateWithAudit c1db ⟨none, none, true⟩ ⟨"e1", some "EDITOR"⟩ 1
        [("status", Json.str "PENDING_REVIEW")]).1.status = 200 ∧
    (getProduct (updateWithAudit c1db ⟨none, none, true⟩
          ⟨"e1", some "EDITOR"⟩ 1
          [("status", Json.str "PENDING_REVIEW")]).2.1 1).map
        (fun d => getKey d "status") =
      some (some (Json.str "PENDING_REVIEW")) := by decide

theorem status_transitions_of_provider_updates_witness :
    WF c1wdb ∧ (∀ op ∈ c1wops, updatesByProvider op = true) ∧
    getProduct c1wdb 1 = some c1wdoc ∧
    getProduct (runOps c1wdb c1wops) 1 = some c1wdoc2 ∧
    statusStep (getKey c1wdoc "status") (getKey c1wdoc2 "status") :=
  ⟨by decide, by decide, by decide, by decide,
    status_transitions_of_provider_updates c1wdb c1wops (by decide)
      (by decide) 1 c1wdoc c1wdoc2 (by decide) (by decide)⟩

/-- C2 counterexample: updating only `description` (from `""` to
`"Tasty"`), `previous` is not `{description: ""}` — it also carries the
other business fields of the current document, e.g. `name`. -/
theorem auditDiff_previous_not_restricted_to_update_keys :
    hasKey c2upd "description" = true ∧
    getKey c2cur "description" ≠ getKey c2upd "description" ∧
    (computeAuditDiff c2cur c2upd).1 ≠ [("description", Json.str "")] ∧
    hasKey (computeAuditDiff c2cur c2upd).1 "name" = true ∧
    hasKey c2upd "name" = false := by decide

/-- C2 (amended): when some business field present in `updates`
structurally differs from the current value, `computeAuditDiff` returns as
`previous` the snapshot of all eight business fields present in the current
document (not only the updated keys), and as `next` that same snapshot with
every business field present in `updates` replaced by its new value; no key
outside the eight business fields occurs in `next`. -/
theorem auditDiff_full_snapshot_spec (current updates : Obj)
    (h : touchedP current updates = true) :
    (computeAuditDiff current updates).1 = pick current BUSINESS_FIELDS ∧
    (∀ k ∈ BUSINESS_FIELDS, getKey (computeAuditDiff current updates).2 k =
      if hasKey updates k = true then getKey updates k
      else getKey current k) ∧
    (∀ k, k ∉ BUSINESS_FIELDS →
      getKey (computeAuditDiff current updates).2 k = none) := by
  obtain ⟨h1, h2⟩ := computeAuditDiff_of_touched current updates h
  refine ⟨h1, ?_, ?_⟩
  · intro k hk
    rw [h2 k]
    by_cases hu : hasKey updates k = true
    · simp [hu, hk]
    · simp [hu, getKey_pick, hk]
  · intro k hk
    rw [h2 k]
    simp [hk, getKey_pick]

theorem auditDiff_full_snapshot_spec_witness :
    touchedP c2cur c2upd = true ∧
    (computeAuditDiff c2cur c2upd).1 = pick c2cur BUSINESS_FIELDS :=
  ⟨by decide, (auditDiff_full_snapshot_spec c2cur c2upd (by decide)).1⟩

/-- C3 counterexample: when the audit-log append fails (the store reports
failure, which `createWithRole` silently ignores), the event publish and
the search upsert are still attempted — so they are not attempted "only
after ... the audit write succeed[s]". -/
theorem publish_attempted_despite_audit_failure :
    (⟨none, none, false⟩ : Oracle).auditOk = false ∧
    (createWithRole c3db ⟨none, none, false⟩ c3actor c3input).2.2 =
      [Effect.insertProduct (createPayload c3actor c3input) true,
        Effect.auditInsert 1 "u1" "CREATE" []
          (pick (createPayload c3actor c3input) BUSINESS_FIELDS) false,
        Effect.publishEvent "product.created" 1,
        Effect.esUpsert 1] ∧
    Effect.publishEvent "product.created" 1 ∈
      (createWithRole c3db ⟨none, none, false⟩ c3actor c3input).2.2 ∧
    Effect.esUpsert 1 ∈
      (createWithRole c3db ⟨none, none, false⟩ c3actor c3input).2.2 := by
  decide

/-- C3 (amended): in every execution of Create, Update, and Approve, the
audit append is attempted only after the primary write succeeds (if the
primary write fails, no audit, publish, or upsert is attempted), and the
event publish and search upsert are attempted only after the primary write
succeeds and the audit append has been attempted — the audit append's own
success is not required, since its result is discarded. -/
theorem effects_ordering_spec (db : DB) (o : Oracle) (actor : Actor)
    (input updates : Obj) (id : Nat) :
    effectsOrdered (createWithRole db o actor input).2.2 false false =
      true ∧
    effectsOrdered (updateWithAudit db o actor id updates).2.2 false false =
      true ∧
    effectsOrdered (approvePending db o actor id).2.2 false false = true ∧
    (∀ e, o.insertErr = some e →
      (createWithRole db o actor input).2.2 =
        [Effect.insertProduct (createPayload actor input) false] ∧
      (createWithRole db o actor input).1 = e) ∧
    (∀ e, o.updateErr = some e →
      countAudits (updateWithAudit db o actor id updates).2.2 = 0 ∧
      countSideEffects (updateWithAudit db o actor id updates).2.2 = 0 ∧
      countAudits (approvePending db o actor id).2.2 = 0 ∧
      countSideEffects (approvePending db o actor id).2.2 = 0) := by
  refine ⟨?_, ?_, ?_, ?_, ?_⟩
  · cases hi : o.insertErr <;>
      simp [createWithRole, hi, effectsOrdered]
  · simp only [updateWithAudit]
    split
    · rfl
    · split
      · rfl
      · split
        · rfl
        · split
          · rfl
          · split
            · split
              · rfl
              · rfl
            · rfl
  · simp only [approvePending]
    split
    · rfl
    · split
      · rfl
      · split
        · rfl
        · split
          · rfl
          · rfl
  · intro e he
    refine ⟨?_, ?_⟩ <;> simp [createWithRole, he]
  · intro e he
    refine ⟨?_, ?_, ?_, ?_⟩
    all_goals simp only [updateWithAudit, approvePending]
    case refine_1 | refine_2 =>
      split
      · rfl
      · split
        · rfl
        · split
          · rfl
          · split
            · rfl
            · split
              · split
                · rename_i h2
                  rw [he] at h2
                  cases h2
                · rfl
              · rfl
    case refine_3 | refine_4 =>
      split
      · rfl
      · split
        · rfl
        · split
          · rfl
          · split
            · rename_i h2
              rw [he] at h2
              cases h2
            · rfl

theorem effects_ordering_spec_witness :
    effectsOrdered (createWithRole c3db ⟨some resDuplicateKey, none, true⟩
      c3actor c3input).2.2 false false = true ∧
    (⟨some resDuplicateKey, none, true⟩ : Oracle).insertErr =
      some resDuplicateKey ∧
    (createWithRole c3db ⟨some resDuplicateKey, none, true⟩ c3actor
        c3input).2.2 =
      [Effect.insertProduct (createPayload c3actor c3input) false] ∧
    (createWithRole c3db ⟨some resDuplicateKey, none, true⟩ c3actor
        c3input).1 = resDuplicateKey :=
  ⟨(effects_ordering_spec c3db ⟨some resDuplicateKey, none, true⟩ c3actor
      c3input [] 1).1,
    rfl,
    ((effects_ordering_spec c3db ⟨some resDuplicateKey, none, true⟩ c3actor
      c3input [] 1).2.2.2.1 resDuplicateKey rfl).1,
    ((effects_ordering_spec c3db ⟨some resDuplicateKey, none, true⟩ c3actor
      c3input [] 1).2.2.2.1 resDuplicateKey rfl).2⟩

/-- C4: Create persists `{ ...input, status, createdBy }` where the status
is PUBLISHED exactly for the (lower-cased) editor role and PENDING_REVIEW
for every other role, sets `createdBy` to the actor's user id, and on
successful persistence attempts exactly one CREATE audit record with empty
previous values and, as new values, the snapshot of the eight business
fields as persisted (which includes the derived status). -/
theorem create_role_status_and_audit (db : DB) (o : Oracle) (actor : Actor)
    (input : Obj) (h : o.insertErr = none) :
    (createWithRole db o actor input).2.1 =
      ⟨db.products ++ [(db.nextId, createPayload actor input)],
        db.nextId + 1⟩ ∧
    getKey (createPayload actor input) "status" =
      some (Json.str (if roleLower actor = "editor" then "PUBLISHED"
        else "PENDING_REVIEW")) ∧
    getKey (createPayload actor input) "createdBy" =
      some (Json.str actor.userId) ∧
    (createWithRole db o actor input).2.2 =
      [Effect.insertProduct (createPayload actor input) true,
        Effect.auditInsert db.nextId actor.userId "CREATE" []
          (pick (createPayload actor input) BUSINESS_FIELDS) o.auditOk,
        Effect.publishEvent "product.created" db.nextId,
        Effect.esUpsert db.nextId] ∧
    countAudits (createWithRole db o actor input).2.2 = 1 ∧
    getKey (pick (createPayload actor input) BUSINESS_FIELDS) "status" =
      getKey (createPayload actor input) "status" := by
  refine ⟨?_, ?_, ?_, ?_, ?_, ?_⟩
  · simp [createWithRole, h]
  · rw [getKey_createPayload_status]
    by_cases he : roleLower actor = "editor"
    · simp [he]
    · simp [he, beq_eq_false_iff_ne.mpr he]
  · exact getKey_createPayload_createdBy actor input
  · simp [createWithRole, h]
  · simp [createWithRole, h, countAudits, isAuditEffect]
  · rw [getKey_pick, if_pos (by decide)]

theorem create_role_status_and_audit_witness :
    ((⟨none, none, true⟩ : Oracle).insertErr = none) ∧
    (createWithRole ⟨[], 1⟩ ⟨none, none, true⟩ ⟨"u1", some "provider"⟩
        [("name", Json.str "Choc Bar")]).2.1 =
      ⟨[] ++ [(1, createPayload ⟨"u1", some "provider"⟩
        [("name", Json.str "Choc Bar")])], 2⟩ :=
  ⟨rfl, (create_role_status_and_audit ⟨[], 1⟩ ⟨none, none, true⟩
    ⟨"u1", some "provider"⟩ [("name", Json.str "Choc Bar")] rfl).1⟩

/-- C5: Approve returns the 403 error for any non-editor actor; for an
editor on an active product whose status is not PENDING_REVIEW it returns
the 400 error with no product write and no audit write; for an editor on an
active PENDING_REVIEW product (with the store accepting the write) it
persists the document with status set to PUBLISHED and attempts exactly one
STATUS_CHANGE audit record with previous `{status: PENDING_REVIEW}` and new
`{status: PUBLISHED}`. -/
theorem approve_behavior_spec (db : DB) (o : Oracle) (actor : Actor)
    (id : Nat) :
    (roleLower actor ≠ "editor" →
      approvePending db o actor id = (resOnlyEditorsApprove, db, [])) ∧
    (∀ current, roleLower actor = "editor" →
      getProduct db id = some current →
      getKey current "status" ≠ some (Json.str "PENDING_REVIEW") →
      approvePending db o actor id = (resOnlyPendingApprove, db, [])) ∧
    (∀ current, roleLower actor = "editor" →
      getProduct db id = some current →
      getKey current "status" = some (Json.str "PENDING_REVIEW") →
      o.updateErr = none →
      approvePending db o actor id =
        (⟨200, some (setKey current "status" (Json.str "PUBLISHED")), none⟩,
          ⟨updateActive db.products id [("status", Json.str "PUBLISHED")],
            db.nextId⟩,
          [Effect.updateProduct id [("status", Json.str "PUBLISHED")] true,
            Effect.auditInsert id actor.userId "STATUS_CHANGE"
              [("status", Json.str "PENDING_REVIEW")]
              [("status", Json.str "PUBLISHED")] o.auditOk,
            Effect.publishEvent "product.approved" id,
            Effect.esUpsert id]) ∧
        getProduct (approvePending db o actor id).2.1 id =
          some (setKey current "status" (Json.str "PUBLISHED")) ∧
        getKey (setKey current "status" (Json.str "PUBLISHED")) "status" =
          some (Json.str "PUBLISHED") ∧
        countAudits (approvePending db o actor id).2.2 = 1) := by
  refine ⟨?_, ?_, ?_⟩
  · intro hne
    have hb : (roleLower actor == "editor") = false :=
      beq_eq_false_iff_ne.mpr hne
    simp [approvePending, hb]
  · intro current he hc hs
    have hb : (roleLower actor == "editor") = true := beq_iff_eq.mpr he
    have hsb : (getKey current "status" ==
        some (Json.str "PENDING_REVIEW")) = false :=
      beq_eq_false_iff_ne.mpr hs
    simp [approvePending, hb, hc, hsb]
  · intro current he hc hs hup
    have hb : (roleLower actor == "editor") = true := beq_iff_eq.mpr he
    have hsb : (getKey current "status" ==
        some (Json.str "PENDING_REVIEW")) = true := beq_iff_eq.mpr hs
    have happ : applyUpdates current [("status", Json.str "PUBLISHED")] =
        setKey current "status" (Json.str "PUBLISHED") := rfl
    have hmain : approvePending db o actor id =
        (⟨200, some (setKey current "status" (Json.str "PUBLISHED")), none⟩,
          ⟨updateActive db.products id [("status", Json.str "PUBLISHED")],
            db.nextId⟩,
          [Effect.updateProduct id [("status", Json.str "PUBLISHED")] true,
            Effect.auditInsert id actor.userId "STATUS_CHANGE"
              [("status", Json.str "PENDING_REVIEW")]
              [("status", Json.str "PUBLISHED")] o.auditOk,
            Effect.publishEvent "product.approved" id,
            Effect.esUpsert id]) := by
      rw [← happ]
      simp [approvePending, hb, hc, hsb, hup]
    refine ⟨hmain, ?_, getKey_setKey_self _ _ _, ?_⟩
    · rw [hmain]
      have hact : isActive (applyUpdates current
          [("status", Json.str "PUBLISHED")]) = true := by
        unfold isActive
        rw [getKey_applyUpdates_of_not_hasKey _ _ _ (by rfl)]
        have ha := isActive_of_findProduct _ _ _ hc
        unfold isActive at ha
        exact ha
      have hfind := findProduct_updateActive_self_active db.products id
        [("status", Json.str "PUBLISHED")] current hc hact
      rw [show getProduct (⟨updateActive db.products id
          [("status", Json.str "PUBLISHED")], db.nextId⟩ : DB) id =
        findProduct (updateActive db.products id
          [("status", Json.str "PUBLISHED")]) id from rfl, hfind, happ]
    · rw [hmain]
      rfl

theorem approve_behavior_spec_witness :
    roleLower ⟨"e1", some "Editor"⟩ = "editor" ∧
    getProduct c5db 1 = some c5doc ∧
    getKey c5doc "status" = some (Json.str "PENDING_REVIEW") ∧
    getProduct (approvePending c5db ⟨none, none, true⟩
        ⟨"e1", some "Editor"⟩ 1).2.1 1 =
      some (setKey c5doc "status" (Json.str "PUBLISHED")) ∧
    approvePending c5db ⟨none, none, true⟩ ⟨"p", some "provider"⟩ 1 =
      (resOnlyEditorsApprove, c5db, []) :=
  ⟨by decide, by decide, by decide,
    ((approve_behavior_spec c5db ⟨none, none, true⟩ ⟨"e1", some "Editor"⟩
        1).2.2 c5doc (by decide) (by decide) (by decide) rfl).2.1,
    (approve_behavior_spec c5db ⟨none, none, true⟩ ⟨"p", some "provider"⟩
      1).1 (by decide)⟩

/-- C6: on an existing active product, a provider-role Update is rejected
with 403 when the actor does not own the product, with 400 when the product
is not PENDING_REVIEW, and with 400 when the payload contains a `status`
key — in each case with no product write, no audit record, and no side
effect.  An editor-role Update bypasses all three checks: even when all
three conditions are violated at once it proceeds to the write and, when
the store accepts it, succeeds with HTTP 200. -/
theorem update_provider_checks_spec (db : DB) (o : Oracle) (actor : Actor)
    (id : Nat) (updates current : Obj)
    (hc : getProduct db id = some current) :
    (roleLower actor = "provider" →
      getKey current "createdBy" ≠ some (Json.str actor.userId) →
      updateWithAudit db o actor id updates = (resNotOwner, db, [])) ∧
    (roleLower actor = "provider" →
      getKey current "createdBy" = some (Json.str actor.userId) →
      getKey current "status" ≠ some (Json.str "PENDING_REVIEW") →
      updateWithAudit db o actor id updates =
        (resOnlyPendingUpdate, db, [])) ∧
    (roleLower actor = "provider" →
      getKey current "createdBy" = some (Json.str actor.userId) →
      getKey current "status" = some (Json.str "PENDING_REVIEW") →
      hasKey updates "status" = true →
      updateWithAudit db o actor id updates = (resNoStatusChange, db, [])) ∧
    (roleLower actor = "editor" →
      getKey current "createdBy" ≠ some (Json.str actor.userId) →
      getKey current "status" ≠ some (Json.str "PENDING_REVIEW") →
      hasKey updates "status" = true →
      o.updateErr = none →
      (updateWithAudit db o actor id updates).1.status = 200) := by
  refine ⟨?_, ?_, ?_, ?_⟩
  · intro hp hno
    have hb : (roleLower actor == "provider") = true := beq_iff_eq.mpr hp
    have h1 : (getKey current "createdBy" ==
        some (Json.str actor.userId)) = false := beq_eq_false_iff_ne.mpr hno
    simp [updateWithAudit, hc, hb, h1]
  · intro hp hown hst
    have hb : (roleLower actor == "provider") = true := beq_iff_eq.mpr hp
    have h1 : (getKey current "createdBy" ==
        some (Json.str actor.userId)) = true := beq_iff_eq.mpr hown
    have h2 : (getKey current "status" ==
        some (Json.str "PENDING_REVIEW")) = false :=
      beq_eq_false_iff_ne.mpr hst
    simp [updateWithAudit, hc, hb, h1, h2]
  · intro hp hown hst hkey
    have hb : (roleLower actor == "provider") = true := beq_iff_eq.mpr hp
    have h1 : (getKey current "createdBy" ==
        some (Json.str actor.userId)) = true := beq_iff_eq.mpr hown
    have h2 : (getKey current "status" ==
        some (Json.str "PENDING_REVIEW")) = true := beq_iff_eq.mpr hst
    simp [updateWithAudit, hc, hb, h1, h2, hkey]
  · intro he hno hnp hsk hupd
    have hpb : (roleLower actor == "provider") = false := by
      rw [he]
      rfl
    simp only [updateWithAudit, hc, hpb, Bool.false_and, Bool.false_eq_true,
      if_false, hupd]
    split
    · rfl
    · rfl

theorem update_provider_checks_spec_witness :
    getProduct c6db 1 = some c6doc ∧
    updateWithAudit c6db ⟨none, none, true⟩ ⟨"intruder", some "provider"⟩ 1
      [("name", Json.str "X")] = (resNotOwner, c6db, []) ∧
    (updateWithAudit c6db ⟨none, none, true⟩ ⟨"e", some "editor"⟩ 1
      [("status", Json.str "PENDING_REVIEW")]).1.status = 200 :=
  ⟨by decide,
    (update_provider_checks_spec c6db ⟨none, none, true⟩
      ⟨"intruder", some "provider"⟩ 1 [("name", Json.str "X")] c6doc
      (by decide)).1 (by decide) (by decide),
    (update_provider_checks_spec c6db ⟨none, none, true⟩
      ⟨"e", some "editor"⟩ 1 [("status", Json.str "PENDING_REVIEW")] c6doc
      (by decide)).2.2.2 (by decide) (by decide) (by decide) (by decide)
      rfl⟩

/-- C7: when an Update passes authorization and no business field present
in `updates` structurally differs from the current value (in particular for
an empty payload), the audit diff is the empty sentinel and the operation
returns the current product with HTTP 200, performs no product write,
appends no audit record, publishes no event, and upserts nothing into the
search index. -/
theorem update_noop_spec (db : DB) (o : Oracle) (actor : Actor) (id : Nat)
    (updates current : Obj) (hc : getProduct db id = some current)
    (hauth : roleLower actor = "provider" →
      getKey current "createdBy" = some (Json.str actor.userId) ∧
      getKey current "status" = some (Json.str "PENDING_REVIEW") ∧
      hasKey updates "status" = false)
    (hnd : touchedP current updates = false) :
    computeAuditDiff current updates = ([], []) ∧
    updateWithAudit db o actor id updates =
      (⟨200, some current, none⟩, db, []) := by
  have hs := computeAuditDiff_sentinel current updates hnd
  refine ⟨hs, ?_⟩
  by_cases hp : roleLower actor = "provider"
  · obtain ⟨h1, h2, h3⟩ := hauth hp
    have hb : (roleLower actor == "provider") = true := beq_iff_eq.mpr hp
    simp [updateWithAudit, hc, hb, beq_iff_eq.mpr h1, beq_iff_eq.mpr h2,
      h3, hs]
  · have hb : (roleLower actor == "provider") = false :=
      beq_eq_false_iff_ne.mpr hp
    simp [updateWithAudit, hc, hb, hs]

theorem update_noop_spec_witness :
    touchedP c7doc [("description", Json.str "Tasty")] = false ∧
    updateWithAudit c7db ⟨none, none, true⟩ ⟨"u1", some "provider"⟩ 1
      [("description", Json.str "Tasty")] =
      (⟨200, some c7doc, none⟩, c7db, []) :=
  ⟨by decide,
    (update_noop_spec c7db ⟨none, none, true⟩ ⟨"u1", some "provider"⟩ 1
      [("description", Json.str "Tasty")] c7doc (by decide)
      (fun _ => ⟨by decide, by decide, by decide⟩) (by decide)).2⟩

/-- C9: for any actor whose (lower-cased) role is not the editor role,
Approve returns the 403 error over every possible store state — including
stores in which the product id does not exist or is soft-deleted — so the
role check precedes the product lookup and a 404 is never produced for
non-editor callers. -/
theorem approve_role_check_before_lookup (db : DB) (o : Oracle)
    (actor : Actor) (id : Nat) (h : roleLower actor ≠ "editor") :
    approvePending db o actor id = (resOnlyEditorsApprove, db, []) ∧
    (approvePending db o actor id).1.status = 403 ∧
    (approvePending db o actor id).1.status ≠ 404 := by
  have hb : (roleLower actor == "editor") = false :=
    beq_eq_false_iff_ne.mpr h
  refine ⟨?_, ?_, ?_⟩ <;> simp [approvePending, hb, resOnlyEditorsApprove]

theorem approve_role_check_before_lookup_witness :
    roleLower ⟨"p1", some "provider"⟩ ≠ "editor" ∧
    approvePending (⟨[], 1⟩ : DB) ⟨none, none, true⟩
      ⟨"p1", some "provider"⟩ 7 =
      (resOnlyEditorsApprove, (⟨[], 1⟩ : DB), []) :=
  ⟨by decide,
    (approve_role_check_before_lookup ⟨[], 1⟩ ⟨none, none, true⟩
      ⟨"p1", some "provider"⟩ 7 (by decide)).1⟩

/-- C10: the actor's role is lower-cased before comparison with the
lowercase role constants, so "EDITOR", "Editor", and "editor" all
auto-publish on Create; a missing, null, or unknown role is neither the
editor role (Create yields PENDING_REVIEW) nor the provider role (Update
applies none of the provider restrictions: even updating an unowned
product with a `status` key in the payload proceeds to the write and, when
the store accepts it, succeeds with HTTP 200). -/
theorem role_case_insensitive_spec :
    (∀ u : String, ∀ r ∈ (["EDITOR", "Editor", "editor"] : List String),
      ∀ input : Obj, getKey (createPayload ⟨u, some r⟩ input) "status" =
        some (Json.str "PUBLISHED")) ∧
    (∀ (u : String) (ro : Option String) (input : Obj),
      lowerString (ro.getD "") ≠ "editor" →
      getKey (createPayload ⟨u, ro⟩ input) "status" =
        some (Json.str "PENDING_REVIEW")) ∧
    (∀ u : String, roleLower ⟨u, none⟩ = "" ∧
      roleLower ⟨u, some "Provider"⟩ = "provider") ∧
    (∀ (db : DB) (o : Oracle) (a : Actor) (id : Nat)
        (updates current : Obj),
      roleLower a ≠ "provider" →
      getProduct db id = some current →
      getKey current "createdBy" ≠ some (Json.str a.userId) →
      hasKey updates "status" = true →
      o.updateErr = none →
      (updateWithAudit db o a id updates).1.status = 200) := by
  refine ⟨?_, ?_, ?_, ?_⟩
  · intro u r hr input
    rw [getKey_createPayload_status]
    simp only [List.mem_cons, List.mem_singleton, List.not_mem_nil,
      or_false] at hr
    rcases hr with rfl | rfl | rfl <;> rfl
  · intro u ro input hne
    rw [getKey_createPayload_status]
    have hb : (roleLower ⟨u, ro⟩ == "editor") = false :=
      beq_eq_false_iff_ne.mpr hne
    simp [hb]
  · intro u
    exact ⟨rfl, rfl⟩
  · intro db o a id updates current hnp hc hno hsk hupd
    have hpb : (roleLower a == "provider") = false :=
      beq_eq_false_iff_ne.mpr hnp
    simp only [updateWithAudit, hc, hpb, Bool.false_and, Bool.false_eq_true,
      if_false, hupd]
    split
    · rfl
    · rfl

theorem role_case_insensitive_spec_witness :
    getKey (createPayload ⟨"u", some "Editor"⟩ []) "status" =
      some (Json.str "PUBLISHED") ∧
    getKey (createPayload ⟨"u", none⟩ []) "status" =
      some (Json.str "PENDING_REVIEW") ∧
    (updateWithAudit c10db ⟨none, none, true⟩ ⟨"u", some "ADMIN"⟩ 1
      [("status", Json.str "PENDING_REVIEW")]).1.status = 200 :=
  ⟨role_case_insensitive_spec.1 "u" "Editor" (by decide) [],
    role_case_insensitive_spec.2.1 "u" none [] (by decide),
    role_case_insensitive_spec.2.2.2 c10db ⟨none, none, true⟩
      ⟨"u", some "ADMIN"⟩ 1 [("status", Json.str "PENDING_REVIEW")] c10doc
      (by decide) (by decide) (by decide) (by decide) rfl⟩

theorem gtinWeight_eq (n pos : Nat) :
    (if (n % 2 == 0 && pos % 2 == 0) || (n % 2 == 1 && pos % 2 == 1)
      then (3 : Nat) else 1) = specWeight n pos := by
  unfold specWeight
  exact if_congr (by simp) rfl rfl

theorem gtinSum_eq_spec (n : Nat) (l : List Char) (i : Nat) :
    gtinSum n i l = ((l.enumFrom i).map
      (fun p => digitVal p.2 * specWeight n (p.1 + 1))).sum := by
  induction l generalizing i with
  | nil => simp [gtinSum]
  | cons c cs ih =>
      simp only [gtinSum, List.enumFrom, List.map_cons, List.sum_cons]
      rw [ih (i + 1), gtinWeight_eq]

theorem computeCheckDigit_eq_spec (base : String)
    (h : isNumericString base = true) :
    computeCheckDigit base = some (specCheckDigit base) := by
  unfold computeCheckDigit
  rw [if_pos h]
  show some ((10 - gtinSum base.data.length 0 base.data % 10) % 10) = _
  rw [gtinSum_eq_spec]
  rfl

theorem isValidGTIN_iff (s : String) :
    isValidGTIN s = true ↔
      (s.data.all Char.isDigit = true ∧
        (s.data.length = 8 ∨ s.data.length = 12 ∨ s.data.length = 13 ∨
          s.data.length = 14) ∧
        ∃ c, s.data.getLast? = some c ∧
          digitVal c = specCheckDigit (String.mk s.data.dropLast)) := by
  by_cases hp : gtinPattern s = true
  · have hp' := hp
    simp only [gtinPattern, Bool.and_eq_true, Bool.or_eq_true,
      beq_iff_eq] at hp'
    obtain ⟨hall, hlen⟩ := hp'
    have hlen4 : s.data.length = 8 ∨ s.data.length = 12 ∨
        s.data.length = 13 ∨ s.data.length = 14 := by tauto
    have hne : s.data ≠ [] := by
      intro h0
      rw [h0] at hlen4
      simp at hlen4
    obtain ⟨c, hc⟩ : ∃ c, s.data.getLast? = some c := by
      cases hl : s.data.getLast? with
      | some c => exact ⟨c, rfl⟩
      | none => exact absurd (List.getLast?_eq_none_iff.mp hl) hne
    have hnum : isNumericString (String.mk s.data.dropLast) = true := by
      simp only [isNumericString, Bool.and_eq_true]
      constructor
      · simp only [decide_eq_true_eq]
        show 0 < s.data.dropLast.length
        rw [List.length_dropLast]
        rcases hlen4 with h | h | h | h <;> rw [h] <;> decide
      · show s.data.dropLast.all Char.isDigit = true
        rw [List.all_eq_true]
        rw [List.all_eq_true] at hall
        intro x hx
        exact hall x ((List.dropLast_sublist s.data).subset hx)
    unfold isValidGTIN
    rw [if_pos hp, computeCheckDigit_eq_spec _ hnum, hc]
    show (specCheckDigit (String.mk s.data.dropLast) == digitVal c) =
      true ↔ _
    constructor
    · intro hbeq
      exact ⟨hall, hlen4, c, rfl, (beq_iff_eq.mp hbeq).symm⟩
    · rintro ⟨-, -, c', hc', hd⟩
      cases hc'
      exact beq_iff_eq.mpr hd.symm
  · unfold isValidGTIN
    rw [if_neg hp]
    constructor
    · intro h0
      cases h0
    · rintro ⟨hall, hlen, -⟩
      refine absurd ?_ hp
      simp only [gtinPattern, Bool.and_eq_true, Bool.or_eq_true,
        beq_iff_eq]
      exact ⟨hall, by tauto⟩

/-- C8: for every numeric base string the code's `computeCheckDigit` equals
the claim's weighted mod-10 formula, and `isValidGTIN s` holds exactly when
`s` is a digit string of length 8, 12, 13, or 14 whose last digit equals
the check digit of `s` without its last digit. -/
theorem gtin_check_digit_spec (base s : String) :
    (isNumericString base = true →
      computeCheckDigit base = some (specCheckDigit base)) ∧
    (isValidGTIN s = true ↔
      (s.data.all Char.isDigit = true ∧
        (s.data.length = 8 ∨ s.data.length = 12 ∨ s.data.length = 13 ∨
          s.data.length = 14) ∧
        ∃ c, s.data.getLast? = some c ∧
          digitVal c = specCheckDigit (String.mk s.data.dropLast))) :=
  ⟨computeCheckDigit_eq_spec base, isValidGTIN_iff s⟩

theorem gtin_check_digit_spec_witness :
    isNumericString "400638133393" = true ∧
    computeCheckDigit "400638133393" =
      some (specCheckDigit "400638133393") ∧
    specCheckDigit "400638133393" = 1 ∧
    isValidGTIN "04006381333931" = true :=
  ⟨by decide,
    (gtin_check_digit_spec "400638133393" "04006381333931").1 (by decide),
    by decide, by decide⟩
